import Mathlib

/-!
Shallow embedding of `source/brailleTables.py` (NVDA braille table registry).

The module keeps a process-wide mapping from table file names to
`BrailleTable` records, plus a list of directories in which table files are
searched. We model the mapping as an association list in insertion order
(CPython dicts preserve insertion order, and assigning to an existing key
keeps its original position), and exceptions as `Except` results.
The gettext translation hook `_(...)` is modelled as the identity on the
literal string, as the spec allows ("a no-op pass-through is an acceptable
implementation for the core").
-/

set_option maxRecDepth 100000

namespace BrailleTables

/-- `BrailleTable` namedtuple: fileName, displayName, contracted, output, input. -/
structure BrailleTable where
  fileName : String
  displayName : String
  contracted : Bool
  output : Bool
  input : Bool
deriving DecidableEq, Repr

/-- The module-level `_tables` dict, as an association list in insertion order. -/
abbrev Registry := List (String × BrailleTable)

/-- `TABLES_DIR = r"louis\tables"`. -/
def TABLES_DIR : String := "louis\\tables"

/-- Generic association-list lookup, modelling Python `dict.get(k)` /
`dict[k]` (the latter raising `KeyError` exactly when this returns `none`). -/
def alistGet {α : Type} : List (String × α) → String → Option α
  | [], _ => none
  | p :: rest, k => if p.1 == k then some p.2 else alistGet rest k

/-- Python dict assignment `d[k] = v`: replaces the value in place if the key
exists (keeping its insertion position), otherwise appends. -/
def insertTable : Registry → String → BrailleTable → Registry
  | [], k, t => [(k, t)]
  | (k', t') :: rest, k, t =>
    if k' == k then (k, t) :: rest else (k', t') :: insertTable rest k t

/-- `addTable(fileName, displayName, contracted=False, output=True, input=True)`:
raises `ValueError` when both `output` and `input` are false, otherwise
constructs the namedtuple and stores it under `fileName`. -/
def addTable (tables : Registry) (fileName displayName : String)
    (contracted output input : Bool) : Except String Registry :=
  if !output && !input then
    Except.error "input and output cannot both be False"
  else
    Except.ok (insertTable tables fileName
      ⟨fileName, displayName, contracted, output, input⟩)

/-- `getTable(fileName)`: `_tables[fileName]`; `none` models the `LookupError`
(`KeyError`) raised for an unregistered file name. -/
def getTable (tables : Registry) (fileName : String) : Option BrailleTable :=
  alistGet tables fileName

/-- `listTables()`: `sorted(_tables.values(), key=lambda table: table.displayName)`.
Python `sorted` is a stable sort by the key; a stable sort by a key is
extensionally unique, so we embed it as insertion sort with the non-strict
comparison on `displayName`, which is stable. -/
def listTables (tables : Registry) : List BrailleTable :=
  List.insertionSort (fun a b => a.displayName ≤ b.displayName)
    (tables.map (fun e => e.2))

/-- The static `RENAMED_TABLES` dict mapping old table file names to new ones. -/
def RENAMED_TABLES : List (String × String) :=
  [ ("ar-fa.utb", "fa-ir-g1.utb"),
    ("da-dk-g16.utb", "da-dk-g16.ctb"),
    ("da-dk-g18.utb", "da-dk-g18.ctb"),
    ("de-de-g0.utb", "de-g0.utb"),
    ("de-de-g1.ctb", "de-g1.ctb"),
    ("de-de-g2.ctb", "de-g2.ctb"),
    ("en-us-comp8.ctb", "en-us-comp8-ext.utb"),
    ("fr-ca-g1.utb", "fr-bfu-comp6.utb"),
    ("Fr-Ca-g2.ctb", "fr-bfu-g2.ctb"),
    ("gr-bb.ctb", "grc-international-en.utb"),
    ("gr-gr-g1.utb", "el.ctb"),
    ("hr.ctb", "hr-comp8.utb"),
    ("mn-MN.utb", "mn-MN-g1.utb"),
    ("nl-BE-g1.ctb", "nl-BE-g0.utb"),
    ("nl-NL-g1.ctb", "nl-NL-g0.utb"),
    ("no-no.ctb", "no-no-8dot.utb"),
    ("no-no-comp8.ctb", "no-no-8dot.utb"),
    ("ru-compbrl.ctb", "ru.ctb"),
    ("sk-sk-g1.utb", "sk-g1.ctb"),
    ("UEBC-g1.ctb", "en-ueb-g1.ctb"),
    ("UEBC-g2.ctb", "en-ueb-g2.ctb") ]

/-- A raw `displayName` value read from a manifest: either a plain string or a
locale-keyed mapping of strings (a ConfigObj subsection). -/
inductive RawDisplayName where
  | str (s : String)
  | map (m : List (String × String))
deriving DecidableEq, Repr

/-- Python truthiness test `not displayName` on an optional string:
true for `None` and for the empty string. -/
def pyFalsy (o : Option String) : Bool :=
  match o with
  | none => true
  | some s => s == ""

/-- Characters before the first underscore. -/
def takeBeforeUnderscore : List Char → List Char
  | [] => []
  | c :: rest => if c = '_' then [] else c :: takeBeforeUnderscore rest

/-- `lang.split("_")[0]`: the part of the locale before the first underscore
(the whole string when it contains none). -/
def langSplit (lang : String) : String :=
  String.mk (takeBeforeUnderscore lang.data)

/-- One step `if not displayName: displayName = value.get(key)` of the locale
fallback chain. -/
def chainStep (m : List (String × String)) (key : String)
    (acc : Option String) : Option String :=
  if pyFalsy acc then alistGet m key else acc

/-- The locale fallback chain of `_getCustomTableDisplayName` after the exact
lookup of the active locale produced `d0`: language-only part of the locale,
then `"en_US"`, then `"en"`, then the file name. -/
def resolveTail (fileName : String) (m : List (String × String))
    (lang : String) (d0 : Option String) : String :=
  let d := chainStep m "en" (chainStep m "en_US" (chainStep m (langSplit lang) d0))
  if pyFalsy d then fileName else d.getD fileName

/-- The full locale fallback chain for a locale-keyed mapping `m`: exact match
on `lang` first, then `resolveTail`. -/
def resolveLocaleDisplayName (fileName : String) (m : List (String × String))
    (lang : String) : String :=
  resolveTail fileName m lang (alistGet m lang)

/-- `_getCustomTableDisplayName(fileName, tableCfg)`, with the value of
`tableCfg.get("displayName")` passed in as `value` (where `none` models a
missing `displayName` key: `dict.get` returns `None` then, it never raises
`KeyError`, so the `except KeyError` branch of the source is unreachable).
A `None`/non-dict value raises `ValueError`; a plain string is returned
through the (identity-modelled) translation hook; a mapping goes through the
locale fallback chain with the active locale `lang`. -/
def getCustomTableDisplayName (fileName : String) (value : Option RawDisplayName)
    (lang : String) : Except String String :=
  match value with
  | some (RawDisplayName.str s) => Except.ok s
  | some (RawDisplayName.map m) =>
      Except.ok (resolveLocaleDisplayName fileName m lang)
  | none =>
      Except.error ("Unexpected displayName value for custom braille table " ++ fileName)

/-- One entry of a parsed manifest section, i.e. the `TABLE_CONFIGURATION`
dict for one table: each recognised key is optional, mirroring
`tableCfg.get(key, default)` in `loadCustomTablesConfig`. -/
structure TableCfg where
  displayName : Option RawDisplayName
  contracted : Option Bool
  output : Option Bool
  input : Option Bool
deriving DecidableEq, Repr

/-- One `.ini` manifest file as seen by the loader: either the parsed
two-level dict (`CustomTablesManifest(file_).dict()`), or an exception
raised while opening/parsing it. -/
abbrev ManifestFile := Except String (List (String × TableCfg))

/-- The contents of one custom directory: `none` models the
`FileNotFoundError` raised by `os.listdir` on a vanished directory; `some`
holds the manifest files found there. -/
abbrev DirContent := Option (List ManifestFile)

/-- `loadCustomTablesConfig(data)`: registers each entry in turn. An
exception from one entry (a bad `displayName` value, or `addTable`'s
`ValueError`) aborts the remaining entries of this file — it propagates to
the per-file handler in the load loop — but entries already registered from
this file stay. -/
def loadCustomTablesConfig (lang : String) (tables : Registry) :
    List (String × TableCfg) → Registry
  | [] => tables
  | (fileName, cfg) :: rest =>
    match getCustomTableDisplayName fileName cfg.displayName lang with
    | Except.error _ => tables
    | Except.ok dn =>
      match addTable tables fileName dn (cfg.contracted.getD false)
          (cfg.output.getD true) (cfg.input.getD true) with
      | Except.error _ => tables
      | Except.ok tables' => loadCustomTablesConfig lang tables' rest

/-- One iteration of the per-file loop: any exception while parsing or
applying a manifest is caught, logged and the file skipped. -/
def applyManifestFile (lang : String) (tables : Registry) (f : ManifestFile) :
    Registry :=
  match f with
  | Except.error _ => tables
  | Except.ok entries => loadCustomTablesConfig lang tables entries

/-- One iteration of the per-directory loop: `FileNotFoundError` from
`os.listdir` is logged and the directory skipped; otherwise each manifest
file is applied in turn. -/
def applyDir (lang : String) (tables : Registry) (d : DirContent) : Registry :=
  match d with
  | none => tables
  | some files => files.foldl (applyManifestFile lang) tables

/-- The custom-table part of the load: the custom directories are processed
in reverse of their discovery order (`for dir_ in reversed(customDirs)`), so
that earlier (higher-precedence) directories are registered last and win. -/
def loadCustomTables (lang : String) (tables : Registry)
    (dirs : List DirContent) : Registry :=
  dirs.reverse.foldl (applyDir lang) tables

/-- Arguments of one builtin `addTable(...)` call. -/
structure AddArgs where
  fileName : String
  displayName : String
  contracted : Bool
  output : Bool
  input : Bool
deriving DecidableEq, Repr

/-- A builtin `addTable` call with the default flags
(`contracted=False, output=True, input=True`). -/
def bt (fileName displayName : String) : AddArgs :=
  ⟨fileName, displayName, false, true, true⟩

/-- A builtin `addTable` call with `contracted=True`. -/
def btc (fileName displayName : String) : AddArgs :=
  ⟨fileName, displayName, true, true, true⟩

/-- Applies one `addTable` call, keeping the registry as-is when it raises.
No builtin call raises (each has `output` or `input` true), and at the point
of a raise the registry is exactly as before the call, so this matches the
source on every reachable input. -/
def applyAdd (tables : Registry) (a : AddArgs) : Registry :=
  match addTable tables a.fileName a.displayName a.contracted a.output a.input with
  | Except.ok tables' => tables'
  | Except.error _ => tables

/-- The builtin `addTable` calls at the top of the load, in source order,
with `_(...)` modelled as the identity. -/
def builtinTables : List AddArgs :=
  [ bt "afr-za-g1.ctb" "Afrikaans grade 1",
    bt "ar-ar-comp8.utb" "Arabic 8 dot computer braille",
    bt "ar-ar-g1.utb" "Arabic grade 1",
    bt "ar-ar-g2.ctb" "Arabic grade 2",
    bt "as-in-g1.utb" "Assamese grade 1",
    bt "be-in-g1.utb" "Bengali grade 1",
    bt "bg.ctb" "Bulgarian 8 dot computer braille",
    bt "ckb-g1.ctb" "Central Kurdish grade 1",
    bt "cy-cy-g1.utb" "Welsh grade 1",
    btc "cy-cy-g2.ctb" "Welsh grade 2",
    bt "cs-comp8.utb" "Czech 8 dot computer braille",
    bt "cs-g1.ctb" "Czech grade 1",
    bt "da-dk-g08.ctb" "Danish 8 dot computer braille",
    bt "da-dk-g16.ctb" "Danish 6 dot grade 1",
    bt "da-dk-g18.ctb" "Danish 8 dot grade 1",
    btc "da-dk-g26.ctb" "Danish 6 dot grade 2",
    btc "da-dk-g28.ctb" "Danish 8 dot grade 2",
    bt "de-de-comp8.ctb" "German 8 dot computer braille",
    bt "de-g0.utb" "German grade 0",
    bt "de-g1.ctb" "German grade 1",
    btc "de-g2.ctb" "German grade 2",
    bt "el.ctb" "Greek (Greece)",
    bt "en-gb-comp8.ctb" "English (U.K.) 8 dot computer braille",
    bt "en-gb-g1.utb" "English (U.K.) grade 1",
    btc "en-GB-g2.ctb" "English (U.K.) grade 2",
    bt "en-nabcc.utb" "English North American Braille Computer Code",
    bt "en-ueb-g1.ctb" "Unified English Braille Code grade 1",
    btc "en-ueb-g2.ctb" "Unified English Braille Code grade 2",
    bt "en-us-comp6.ctb" "English (U.S.) 6 dot computer braille",
    bt "en-us-comp8-ext.utb" "English (U.S.) 8 dot computer braille",
    bt "en-us-g1.ctb" "English (U.S.) grade 1",
    btc "en-us-g2.ctb" "English (U.S.) grade 2",
    bt "eo-g1.ctb" "Esperanto grade 1",
    bt "Es-Es-G0.utb" "Spanish 8 dot computer braille",
    bt "es-g1.ctb" "Spanish grade 1",
    bt "es-g2.ctb" "Spanish grade 2",
    bt "et-g0.utb" "Estonian grade 0",
    bt "ethio-g1.ctb" "Ethiopic grade 1",
    bt "fa-ir-comp8.ctb" "Persian 8 dot computer braille",
    bt "fa-ir-g1.utb" "Persian grade 1",
    bt "fi.utb" "Finnish 6 dot",
    bt "fi-fi-8dot.ctb" "Finnish 8 dot computer braille",
    bt "fr-bfu-comp6.utb" "French (unified) 6 dot computer braille",
    bt "fr-bfu-comp8.utb" "French (unified) 8 dot computer braille",
    btc "fr-bfu-g2.ctb" "French (unified) grade 2",
    bt "ga-g1.utb" "Irish grade 1",
    btc "ga-g2.ctb" "Irish grade 2",
    bt "gu-in-g1.utb" "Gujarati grade 1",
    bt "grc-international-en.utb" "Greek international braille",
    bt "he.ctb" "Hebrew 8 dot computer braille",
    bt "hi-in-g1.utb" "Hindi grade 1",
    bt "hr-comp8.utb" "Croatian 8 dot computer braille",
    bt "hr-g1.ctb" "Croatian grade 1",
    bt "hu-hu-comp8.ctb" "Hungarian 8 dot computer braille",
    bt "hu-hu-g1.ctb" "Hungarian grade 1",
    btc "hu-hu-g2.ctb" "Hungarian grade 2",
    bt "is.ctb" "Icelandic 8 dot computer braille",
    bt "it-it-comp6.utb" "Italian 6 dot computer braille",
    bt "it-it-comp8.utb" "Italian 8 dot computer braille",
    bt "ka-in-g1.utb" "Kannada grade 1",
    bt "ko-2006-g1.ctb" "Korean grade 1 (2006)",
    btc "ko-2006-g2.ctb" "Korean grade 2 (2006)",
    bt "ko-g1.ctb" "Korean grade 1",
    btc "ko-g2.ctb" "Korean grade 2",
    bt "ks-in-g1.utb" "Kashmiri grade 1",
    bt "lt.ctb" "Lithuanian 8 dot",
    bt "lt-6dot.utb" "Lithuanian 6 dot",
    bt "Lv-Lv-g1.utb" "Latvian grade 1",
    bt "ml-in-g1.utb" "Malayalam grade 1",
    bt "mn-in-g1.utb" "Manipuri grade 1",
    bt "mn-MN-g1.utb" "Mongolian grade 1",
    btc "mn-MN-g2.ctb" "Mongolian grade 2",
    bt "mr-in-g1.utb" "Marathi grade 1",
    bt "nl-BE-g0.utb" "Dutch (Belgium) 6 dot",
    bt "nl-NL-g0.utb" "Dutch (Netherlands) 6 dot",
    bt "nl-comp8.utb" "Dutch 8 dot",
    bt "no-no-8dot.utb" "Norwegian 8 dot computer braille",
    bt "No-No-g0.utb" "Norwegian grade 0",
    bt "No-No-g1.ctb" "Norwegian grade 1",
    btc "No-No-g2.ctb" "Norwegian grade 2",
    btc "No-No-g3.ctb" "Norwegian grade 3",
    bt "np-in-g1.utb" "Nepali grade 1",
    bt "or-in-g1.utb" "Oriya grade 1",
    bt "pl-pl-comp8.ctb" "Polish 8 dot computer braille",
    bt "Pl-Pl-g1.utb" "Polish grade 1",
    bt "pt-pt-comp8.ctb" "Portuguese 8 dot computer braille",
    bt "Pt-Pt-g1.utb" "Portuguese grade 1",
    btc "Pt-Pt-g2.ctb" "Portuguese grade 2",
    bt "pu-in-g1.utb" "Punjabi grade 1",
    bt "ro.ctb" "Romanian",
    bt "ru.ctb" "Russian computer braille",
    bt "ru-ru-g1.utb" "Russian grade 1",
    bt "sa-in-g1.utb" "Sanskrit grade 1",
    bt "Se-Se.ctb" "Swedish 8 dot computer braille",
    bt "Se-Se-g1.utb" "Swedish grade 1",
    bt "sk-g1.ctb" "Slovak grade 1",
    bt "sl-si-comp8.ctb" "Slovenian 8 dot computer braille",
    bt "sl-si-g1.utb" "Slovenian grade 1",
    bt "sr-g1.ctb" "Serbian grade 1",
    bt "ta-ta-g1.ctb" "Tamil grade 1",
    bt "te-in-g1.utb" "Telugu grade 1",
    bt "tr.ctb" "Turkish grade 1",
    bt "uk.utb" "Ukrainian",
    AddArgs.mk "unicode-braille.utb" "Unicode braille" false false true,
    bt "vi-g1.ctb" "Vietnamese grade 1",
    bt "zhcn-g1.ctb" "Chinese (China, Mandarin) grade 1",
    bt "zhcn-g2.ctb" "Chinese (China, Mandarin) grade 2",
    bt "zh-hk.ctb" "Chinese (Hong Kong, Cantonese)",
    bt "zh-tw.ctb" "Chinese (Taiwan, Mandarin)" ]

/-- The builtin-table part of the load: all the literal `addTable` calls at
the top of `initialize`, in order. -/
def addBuiltinTables (tables : Registry) : Registry :=
  builtinTables.foldl applyAdd tables

/-- The registry right after the builtin `addTable` calls of a load from an
empty registry. -/
def builtinRegistry : Registry :=
  addBuiltinTables []

/-- The module-level mutable state: `tablesDirs` and `_tables`. -/
structure ModuleState where
  tablesDirs : List String
  tables : Registry
deriving DecidableEq, Repr

/-- The state at import time: `tablesDirs = [TABLES_DIR]`, `_tables = {}`. -/
def initialState : ModuleState :=
  ⟨[TABLES_DIR], []⟩

/-- The `initialize()` entry point (named after the spec's `loadAll`): adds
the builtin tables, prepends the discovered custom directories to
`tablesDirs` (`tablesDirs[:0] = customDirs`), then loads the custom
directories in reverse order. The discovered directories are passed in as
data (path and contents) since discovery itself is file-system work. -/
def loadAll (lang : String) (customDirs : List (String × DirContent))
    (s : ModuleState) : ModuleState :=
  let tables1 := addBuiltinTables s.tables
  ⟨customDirs.map (fun d => d.1) ++ s.tablesDirs,
   loadCustomTables lang tables1 (customDirs.map (fun d => d.2))⟩

/-- `terminate()`: restores `tablesDirs` to `[TABLES_DIR]` and empties the
table mapping. -/
def terminate (_ : ModuleState) : ModuleState :=
  ⟨[TABLES_DIR], []⟩

/-- The public state-mutating operations of the module. -/
inductive Op where
  | add (fileName displayName : String) (contracted output input : Bool)
  | load (lang : String) (customDirs : List (String × DirContent))
  | term
deriving Repr

/-- One public operation applied to the module state. A raising `addTable`
leaves the registry unchanged (the raise happens before the assignment). -/
def step (s : ModuleState) : Op → ModuleState
  | Op.add fn dn c o i =>
    match addTable s.tables fn dn c o i with
    | Except.error _ => s
    | Except.ok t => ⟨s.tablesDirs, t⟩
  | Op.load lang customDirs => loadAll lang customDirs s
  | Op.term => terminate s

/-- The state reached from import time by a sequence of public operations. -/
def runOps (ops : List Op) : ModuleState :=
  ops.foldl step initialState

/-- The registry invariant of the spec: every registered descriptor is
usable for output or for input. -/
def registryInv (tables : Registry) : Prop :=
  ∀ e ∈ tables, e.2.output = true ∨ e.2.input = true

/-!  General helper lemmas. -/

theorem foldlPreserves {α β : Type} {P : α → Prop} {f : α → β → α}
    (hf : ∀ a b, P a → P (f a b)) :
    ∀ (l : List β) (a : α), P a → P (l.foldl f a) := by
  intro l
  induction l with
  | nil => intro a h; exact h
  | cons x xs ih => intro a h; exact ih _ (hf _ _ h)

theorem getTable_insertTable (r : Registry) (k : String) (t : BrailleTable)
    (k' : String) :
    getTable (insertTable r k t) k' = if k' == k then some t else getTable r k' := by
  induction r with
  | nil =>
    simp only [insertTable, getTable, alistGet]
    by_cases h : k' = k
    · subst h; simp
    · have hA : (k == k') = false := by simpa using Ne.symm h
      have hB : (k' == k) = false := by simpa using h
      simp [hA, hB]
  | cons hd tl ih =>
    obtain ⟨k₀, t₀⟩ := hd
    simp only [getTable] at ih ⊢
    by_cases h1 : k₀ = k
    · subst h1
      have hins : insertTable ((k₀, t₀) :: tl) k₀ t = (k₀, t) :: tl := by
        simp [insertTable]
      rw [hins]
      by_cases h : k' = k₀
      · subst h; simp [alistGet]
      · have hA : (k₀ == k') = false := by simpa using Ne.symm h
        have hB : (k' == k₀) = false := by simpa using h
        simp [alistGet, hA, hB]
    · have hA : (k₀ == k) = false := by simpa using h1
      have hins : insertTable ((k₀, t₀) :: tl) k t = (k₀, t₀) :: insertTable tl k t := by
        simp [insertTable, hA]
      rw [hins]
      by_cases h2 : k₀ = k'
      · subst h2
        have hB : (k₀ == k) = false := by simpa using h1
        simp [alistGet, hB]
      · have hB : (k₀ == k') = false := by simpa using h2
        simp [alistGet, hB, ih]

theorem mem_insertTable {r : Registry} {k : String} {t : BrailleTable}
    {e : String × BrailleTable} : e ∈ insertTable r k t → e = (k, t) ∨ e ∈ r := by
  induction r with
  | nil =>
    intro he
    left
    simpa [insertTable] using he
  | cons hd tl ih =>
    intro he
    obtain ⟨k₀, t₀⟩ := hd
    by_cases h : k₀ = k
    · subst h
      have hins : insertTable ((k₀, t₀) :: tl) k₀ t = (k₀, t) :: tl := by
        simp [insertTable]
      rw [hins] at he
      rcases List.mem_cons.mp he with he | he
      · exact Or.inl he
      · exact Or.inr (List.mem_cons_of_mem _ he)
    · have hA : (k₀ == k) = false := by simpa using h
      have hins : insertTable ((k₀, t₀) :: tl) k t = (k₀, t₀) :: insertTable tl k t := by
        simp [insertTable, hA]
      rw [hins] at he
      rcases List.mem_cons.mp he with he | he
      · exact Or.inr (he ▸ List.mem_cons_self _ _)
      · rcases ih he with h' | h'
        · exact Or.inl h'
        · exact Or.inr (List.mem_cons_of_mem _ h')

/-!  Preservation of the descriptor invariant. -/

theorem registryInv_insertTable {r : Registry} {k : String} {t : BrailleTable}
    (h : registryInv r) (ht : t.output = true ∨ t.input = true) :
    registryInv (insertTable r k t) := by
  intro e he
  rcases mem_insertTable he with he | he
  · subst he; exact ht
  · exact h e he

theorem registryInv_addTable {r r' : Registry} {fn dn : String} {c o i : Bool}
    (h : registryInv r) (hok : addTable r fn dn c o i = Except.ok r') :
    registryInv r' := by
  unfold addTable at hok
  by_cases hc : (!o && !i) = true
  · rw [if_pos hc] at hok; cases hok
  · rw [if_neg hc] at hok
    injection hok with h'
    subst h'
    refine registryInv_insertTable h ?_
    cases o <;> cases i <;> simp_all

theorem registryInv_applyAdd {r : Registry} {a : AddArgs} (h : registryInv r) :
    registryInv (applyAdd r a) := by
  unfold applyAdd
  split
  · next r' heq => exact registryInv_addTable h heq
  · next => exact h

theorem registryInv_loadCfg {lang : String} :
    ∀ (entries : List (String × TableCfg)) (r : Registry), registryInv r →
      registryInv (loadCustomTablesConfig lang r entries) := by
  intro entries
  induction entries with
  | nil => intro r h; exact h
  | cons e rest ih =>
    intro r h
    obtain ⟨fn, cfg⟩ := e
    unfold loadCustomTablesConfig
    split
    · exact h
    · next dn hdn =>
      split
      · exact h
      · next r' hok => exact ih r' (registryInv_addTable h hok)

theorem registryInv_applyManifestFile {lang : String} {r : Registry}
    {f : ManifestFile} (h : registryInv r) :
    registryInv (applyManifestFile lang r f) := by
  cases f with
  | error e => exact h
  | ok entries => exact registryInv_loadCfg entries r h

theorem registryInv_applyDir {lang : String} {r : Registry} {d : DirContent}
    (h : registryInv r) : registryInv (applyDir lang r d) := by
  cases d with
  | none => exact h
  | some files =>
    exact foldlPreserves (fun r f h => registryInv_applyManifestFile h) files r h

theorem registryInv_loadCustomTables {lang : String} {r : Registry}
    {dirs : List DirContent} (h : registryInv r) :
    registryInv (loadCustomTables lang r dirs) :=
  foldlPreserves (fun _ _ h => registryInv_applyDir h) dirs.reverse r h

theorem registryInv_addBuiltinTables {r : Registry} (h : registryInv r) :
    registryInv (addBuiltinTables r) :=
  foldlPreserves (fun _ _ h => registryInv_applyAdd h) builtinTables r h

theorem registryInv_step {s : ModuleState} (h : registryInv s.tables) :
    ∀ op : Op, registryInv (step s op).tables := by
  intro op
  cases op with
  | add fn dn c o i =>
    simp only [step]
    cases hadd : addTable s.tables fn dn c o i with
    | error e => exact h
    | ok t => exact registryInv_addTable h hadd
  | load lang customDirs =>
    simp only [step, loadAll]
    exact registryInv_loadCustomTables (registryInv_addBuiltinTables h)
  | term =>
    intro e he
    simp only [step, terminate] at he
    cases he

theorem registryInv_runOps (ops : List Op) : registryInv (runOps ops).tables := by
  have base : registryInv initialState.tables := by
    intro e he
    cases he
  exact foldlPreserves (P := fun s => registryInv s.tables)
    (fun s op h => registryInv_step h op) ops initialState base

/-!  Preservation of key presence (monotonicity of the registered key set). -/

theorem hasKey_insertTable {r : Registry} {k : String} {t : BrailleTable}
    {fn : String} (h : (getTable r fn).isSome = true) :
    (getTable (insertTable r k t) fn).isSome = true := by
  rw [getTable_insertTable]
  split
  · rfl
  · exact h

theorem hasKey_addTable {r r' : Registry} {fn' dn : String} {c o i : Bool}
    {fn : String} (h : (getTable r fn).isSome = true)
    (hok : addTable r fn' dn c o i = Except.ok r') :
    (getTable r' fn).isSome = true := by
  unfold addTable at hok
  by_cases hc : (!o && !i) = true
  · rw [if_pos hc] at hok; cases hok
  · rw [if_neg hc] at hok
    injection hok with h'
    subst h'
    exact hasKey_insertTable h

theorem hasKey_loadCfg {lang : String} {fn : String} :
    ∀ (entries : List (String × TableCfg)) (r : Registry),
      (getTable r fn).isSome = true →
      (getTable (loadCustomTablesConfig lang r entries) fn).isSome = true := by
  intro entries
  induction entries with
  | nil => intro r h; exact h
  | cons e rest ih =>
    intro r h
    obtain ⟨fn', cfg⟩ := e
    unfold loadCustomTablesConfig
    split
    · exact h
    · next dn hdn =>
      split
      · exact h
      · next r' hok => exact ih r' (hasKey_addTable h hok)

theorem hasKey_applyManifestFile {lang : String} {r : Registry}
    {f : ManifestFile} {fn : String} (h : (getTable r fn).isSome = true) :
    (getTable (applyManifestFile lang r f) fn).isSome = true := by
  cases f with
  | error e => exact h
  | ok entries => exact hasKey_loadCfg entries r h

theorem hasKey_applyDir {lang : String} {r : Registry} {d : DirContent}
    {fn : String} (h : (getTable r fn).isSome = true) :
    (getTable (applyDir lang r d) fn).isSome = true := by
  cases d with
  | none => exact h
  | some files =>
    exact foldlPreserves (P := fun r => (getTable r fn).isSome = true)
      (fun r f h => hasKey_applyManifestFile h) files r h

/-!  Skipping a failing manifest file. -/

theorem applyDir_skip_error (lang : String) (tables : Registry)
    (pre post : List ManifestFile) (msg : String) :
    applyDir lang tables (some (pre ++ Except.error msg :: post)) =
      applyDir lang tables (some (pre ++ post)) := by
  simp [applyDir, List.foldl_append, applyManifestFile]

theorem getTable_foldl_frame {lang fn : String} :
    ∀ (l : List DirContent) (st : Registry),
      (∀ d ∈ l, ∀ r, getTable (applyDir lang r d) fn = getTable r fn) →
      getTable (l.foldl (applyDir lang) st) fn = getTable st fn := by
  intro l
  induction l with
  | nil => intro st _; rfl
  | cons d rest ih =>
    intro st h
    rw [List.foldl_cons, ih _ (fun d' hd' => h d' (List.mem_cons_of_mem _ hd'))]
    exact h d (List.mem_cons_self _ _) st

theorem loadCustomTables_precedence {lang fn : String} {t1 : BrailleTable}
    (st : Registry) (dirsA dirsB : List DirContent) (d1 : DirContent)
    (h1 : ∀ r, getTable (applyDir lang r d1) fn = some t1)
    (hA : ∀ d ∈ dirsA, ∀ r, getTable (applyDir lang r d) fn = getTable r fn) :
    getTable (loadCustomTables lang st (dirsA ++ d1 :: dirsB)) fn = some t1 := by
  unfold loadCustomTables
  rw [List.reverse_append, List.reverse_cons, List.foldl_append, List.foldl_append,
    List.foldl_cons, List.foldl_nil]
  rw [getTable_foldl_frame dirsA.reverse _
    (fun d hd => hA d (List.mem_reverse.mp hd))]
  exact h1 _

instance : IsTotal BrailleTable (fun a b => a.displayName ≤ b.displayName) :=
  ⟨fun a b => le_total a.displayName b.displayName⟩

instance : IsTrans BrailleTable (fun a b => a.displayName ≤ b.displayName) :=
  ⟨fun _ _ _ h h' => le_trans h h'⟩

/-!  Claim theorems. -/

/-- C1: in every module state reachable through the public operations, every
registered descriptor satisfies `output OR input`; and `addTable` with
`output=False` and `input=False` always raises the `ValueError` and leaves
the state unchanged. -/
theorem registry_invariant :
    (∀ ops : List Op, ∀ e ∈ (runOps ops).tables,
      e.2.output = true ∨ e.2.input = true) ∧
    (∀ (tables : Registry) (fn dn : String) (c : Bool),
      addTable tables fn dn c false false =
        Except.error "input and output cannot both be False") ∧
    (∀ (s : ModuleState) (fn dn : String) (c : Bool),
      step s (Op.add fn dn c false false) = s) :=
  ⟨fun ops => registryInv_runOps ops, fun _ _ _ _ => rfl, fun _ _ _ _ => rfl⟩

theorem registry_invariant_witness :
    (("x.ctb", (⟨"x.ctb", "X", false, true, true⟩ : BrailleTable)) ∈
      (runOps [Op.add "x.ctb" "X" false true true]).tables) ∧
    ((("x.ctb", (⟨"x.ctb", "X", false, true, true⟩ : BrailleTable)).2.output = true) ∨
     (("x.ctb", (⟨"x.ctb", "X", false, true, true⟩ : BrailleTable)).2.input = true)) :=
  ⟨by decide, registry_invariant.1 [Op.add "x.ctb" "X" false true true] _ (by decide)⟩

/-- C2 (amended): the locale fallback chain returns the value at the exact
locale key when it is present and non-empty; otherwise the non-empty value
at the language-only part of the locale; otherwise at `"en_US"`; otherwise
at `"en"`; otherwise the file name (a present but empty value is skipped at
every step, see the empty-value claim); and on the mapping
`en ↦ X, en_US ↦ Y, de ↦ Z`, locale `de_AT` gives `Z`, `fr` gives `Y`, and
`en_US` gives `Y`. -/
theorem resolveLocale_chain :
    (∀ (f : String) (m : List (String × String)) (lang v : String),
      alistGet m lang = some v → v ≠ "" →
      resolveLocaleDisplayName f m lang = v) ∧
    (∀ (f : String) (m : List (String × String)) (lang v : String),
      pyFalsy (alistGet m lang) = true →
      alistGet m (langSplit lang) = some v → v ≠ "" →
      resolveLocaleDisplayName f m lang = v) ∧
    (∀ (f : String) (m : List (String × String)) (lang v : String),
      pyFalsy (alistGet m lang) = true →
      pyFalsy (alistGet m (langSplit lang)) = true →
      alistGet m "en_US" = some v → v ≠ "" →
      resolveLocaleDisplayName f m lang = v) ∧
    (∀ (f : String) (m : List (String × String)) (lang v : String),
      pyFalsy (alistGet m lang) = true →
      pyFalsy (alistGet m (langSplit lang)) = true →
      pyFalsy (alistGet m "en_US") = true →
      alistGet m "en" = some v → v ≠ "" →
      resolveLocaleDisplayName f m lang = v) ∧
    (∀ (f : String) (m : List (String × String)) (lang : String),
      pyFalsy (alistGet m lang) = true →
      pyFalsy (alistGet m (langSplit lang)) = true →
      pyFalsy (alistGet m "en_US") = true →
      pyFalsy (alistGet m "en") = true →
      resolveLocaleDisplayName f m lang = f) ∧
    resolveLocaleDisplayName "t.ctb" [("en", "X"), ("en_US", "Y"), ("de", "Z")] "de_AT" = "Z" ∧
    resolveLocaleDisplayName "t.ctb" [("en", "X"), ("en_US", "Y"), ("de", "Z")] "fr" = "Y" ∧
    resolveLocaleDisplayName "t.ctb" [("en", "X"), ("en_US", "Y"), ("de", "Z")] "en_US" = "Y" := by
  refine ⟨?_, ?_, ?_, ?_, ?_, by decide, by decide, by decide⟩
  · intro f m lang v h hv
    have hfal : pyFalsy (some v) = false := by simp [pyFalsy, hv]
    simp [resolveLocaleDisplayName, resolveTail, chainStep, h, hfal]
  · intro f m lang v h0 h hv
    have hfal : pyFalsy (some v) = false := by simp [pyFalsy, hv]
    simp [resolveLocaleDisplayName, resolveTail, chainStep, h0, h, hfal]
  · intro f m lang v h0 h1 h hv
    have hfal : pyFalsy (some v) = false := by simp [pyFalsy, hv]
    simp [resolveLocaleDisplayName, resolveTail, chainStep, h0, h1, h, hfal]
  · intro f m lang v h0 h1 h2 h hv
    have hfal : pyFalsy (some v) = false := by simp [pyFalsy, hv]
    simp [resolveLocaleDisplayName, resolveTail, chainStep, h0, h1, h2, h, hfal]
  · intro f m lang h0 h1 h2 h3
    simp [resolveLocaleDisplayName, resolveTail, chainStep, h0, h1, h2, h3]

theorem resolveLocale_chain_witness :
    alistGet [("de", "Z")] "de" = some "Z" ∧
    resolveLocaleDisplayName "t.ctb" [("de", "Z")] "de" = "Z" :=
  ⟨by decide, resolveLocale_chain.1 "t.ctb" [("de", "Z")] "de" "Z" (by decide) (by decide)⟩

/-- C2 counterexample: a locale-keyed mapping whose value at the exact
active locale key is present but empty does not resolve to that value — the
chain falls through to the file name. -/
theorem resolveLocale_empty_counterexample :
    alistGet [("de", "")] "de" = some "" ∧
    resolveLocaleDisplayName "t.ctb" [("de", "")] "de" = "t.ctb" ∧
    ("t.ctb" : String) ≠ "" := by
  refine ⟨by decide, by decide, by decide⟩

/-- C3: with no `displayName` value at all, `dict.get` returns `None`
(never raising `KeyError`, so the `except KeyError` branch is dead), the
`isinstance` checks both fail and the code raises `ValueError` — it does
not return the file name as its own docstring says. -/
theorem displayName_absent_raises (fileName lang : String) :
    getCustomTableDisplayName fileName none lang =
      Except.error ("Unexpected displayName value for custom braille table " ++ fileName) :=
  rfl

/-- C4: for every discovered ordered directory list, every table file name
defined by two of its directories D1 and D2 with D1 earlier (higher
precedence), every locale and every prior state, the registry entry for
that file name after the load is D1's descriptor — provided no directory
even earlier than D1 registers that file name (those are processed after D1
in the reversed order and would overwrite it); D2 and everything between or
after are overwritten regardless.  The second conjunct is the spec's
concrete scratchpad-over-addon instance, end to end from the import-time
state, for any two display names. -/
theorem load_precedence :
    (∀ (lang : String) (s : ModuleState)
        (dirsA dirsB dirsC : List (String × DirContent))
        (p1 p2 : String × DirContent) (fn : String) (t1 t2 : BrailleTable),
      (∀ r, getTable (applyDir lang r p1.2) fn = some t1) →
      (∀ r, getTable (applyDir lang r p2.2) fn = some t2) →
      (∀ p ∈ dirsA, ∀ r, getTable (applyDir lang r p.2) fn = getTable r fn) →
      getTable (loadAll lang (dirsA ++ p1 :: (dirsB ++ p2 :: dirsC)) s).tables fn =
        some t1) ∧
    (∀ dn1 dn2 : String,
      getTable (loadAll "en"
        [("scratchpadDir", some [Except.ok [("foo.ctb",
            ⟨some (RawDisplayName.str dn1), none, none, none⟩)]]),
         ("addonDir", some [Except.ok [("foo.ctb",
            ⟨some (RawDisplayName.str dn2), none, none, none⟩)]])]
        initialState).tables "foo.ctb" =
      some ⟨"foo.ctb", dn1, false, true, true⟩) := by
  constructor
  · intro lang s dirsA dirsB dirsC p1 p2 fn t1 t2 h1 _ hA
    have hmap : (loadAll lang (dirsA ++ p1 :: (dirsB ++ p2 :: dirsC)) s).tables =
        loadCustomTables lang (addBuiltinTables s.tables)
          ((dirsA.map (fun d => d.2)) ++ p1.2 :: ((dirsB ++ p2 :: dirsC).map (fun d => d.2))) := by
      simp [loadAll]
    rw [hmap]
    refine loadCustomTables_precedence _ _ _ _ h1 ?_
    intro d hd r
    obtain ⟨p, hp, rfl⟩ := List.mem_map.mp hd
    exact hA p hp r
  · intro dn1 dn2
    rfl

theorem load_precedence_witness :
    getTable (loadAll "en"
      [("D1", some [Except.ok [("foo.ctb",
          ⟨some (RawDisplayName.str "from D1"), none, none, none⟩)]]),
       ("D2", some [Except.ok [("foo.ctb",
          ⟨some (RawDisplayName.str "from D2"), none, none, none⟩)]])]
      initialState).tables "foo.ctb" =
    some ⟨"foo.ctb", "from D1", false, true, true⟩ :=
  load_precedence.1 "en" initialState [] [] []
    ("D1", some [Except.ok [("foo.ctb",
        ⟨some (RawDisplayName.str "from D1"), none, none, none⟩)]])
    ("D2", some [Except.ok [("foo.ctb",
        ⟨some (RawDisplayName.str "from D2"), none, none, none⟩)]])
    "foo.ctb" ⟨"foo.ctb", "from D1", false, true, true⟩
    ⟨"foo.ctb", "from D2", false, true, true⟩
    (by
      intro r
      have hred : applyDir "en" r (some [Except.ok [("foo.ctb",
          ⟨some (RawDisplayName.str "from D1"), none, none, none⟩)]]) =
          insertTable r "foo.ctb" ⟨"foo.ctb", "from D1", false, true, true⟩ := rfl
      rw [hred, getTable_insertTable]
      simp)
    (by
      intro r
      have hred : applyDir "en" r (some [Except.ok [("foo.ctb",
          ⟨some (RawDisplayName.str "from D2"), none, none, none⟩)]]) =
          insertTable r "foo.ctb" ⟨"foo.ctb", "from D2", false, true, true⟩ := rfl
      rw [hred, getTable_insertTable]
      simp)
    (by intro p hp; cases hp)

/-- C5: a manifest file that fails to parse is skipped exactly — the load
result is the same as if the file were not there, so the remaining files are
still processed — and any key present in the registry at any point of a
load is still present afterwards. -/
theorem load_error_containment :
    (∀ (lang : String) (tables : Registry) (dirsA dirsB : List DirContent)
        (pre post : List ManifestFile) (msg : String),
      loadCustomTables lang tables
          (dirsA ++ some (pre ++ Except.error msg :: post) :: dirsB) =
        loadCustomTables lang tables (dirsA ++ some (pre ++ post) :: dirsB)) ∧
    (∀ (lang : String) (tables : Registry) (dirs : List DirContent) (fn : String),
      (getTable tables fn).isSome = true →
      (getTable (loadCustomTables lang tables dirs) fn).isSome = true) := by
  constructor
  · intro lang tables dirsA dirsB pre post msg
    simp only [loadCustomTables, List.reverse_append, List.reverse_cons,
      List.foldl_append, List.foldl_cons, List.foldl_nil]
    rw [applyDir_skip_error]
  · intro lang tables dirs fn h
    exact foldlPreserves (P := fun r => (getTable r fn).isSome = true)
      (fun _ _ h => hasKey_applyDir h) dirs.reverse tables h

theorem load_error_containment_witness :
    (getTable [("a.ctb", (⟨"a.ctb", "A", false, true, true⟩ : BrailleTable))]
      "a.ctb").isSome = true ∧
    (getTable (loadCustomTables "en"
        [("a.ctb", (⟨"a.ctb", "A", false, true, true⟩ : BrailleTable))]
        [some [Except.error "bad manifest"]]) "a.ctb").isSome = true :=
  ⟨by decide,
   load_error_containment.2 "en"
     [("a.ctb", ⟨"a.ctb", "A", false, true, true⟩)]
     [some [Except.error "bad manifest"]] "a.ctb" (by decide)⟩

/-- C6: `listTables` returns exactly the registered descriptors (a
permutation of the mapping's values), ordered so that any entry's display
name is `≤` every later one's. -/
theorem listTables_sorted (tables : Registry) :
    List.Pairwise (fun a b : BrailleTable => a.displayName ≤ b.displayName)
      (listTables tables) ∧
    (listTables tables).Perm (tables.map (fun e => e.2)) := by
  constructor
  · exact List.sorted_insertionSort _ _
  · exact List.perm_insertionSort _ _

/-- C7: a successful `addTable` for a file name that is already registered
replaces that entry entirely with the newly constructed descriptor, and
every other key's entry is unchanged. -/
theorem addTable_overwrites (tables : Registry) (fn dn : String) (c o i : Bool)
    (told : BrailleTable) (tables' : Registry)
    (_hprev : getTable tables fn = some told)
    (hok : addTable tables fn dn c o i = Except.ok tables') :
    getTable tables' fn = some ⟨fn, dn, c, o, i⟩ ∧
    ∀ g, g ≠ fn → getTable tables' g = getTable tables g := by
  unfold addTable at hok
  by_cases hc : (!o && !i) = true
  · rw [if_pos hc] at hok; cases hok
  · rw [if_neg hc] at hok
    injection hok with h'
    subst h'
    constructor
    · rw [getTable_insertTable]; simp
    · intro g hg
      rw [getTable_insertTable]
      have hB : (g == fn) = false := by simpa using hg
      simp [hB]

theorem addTable_overwrites_witness :
    getTable [("a.ctb", (⟨"a.ctb", "Old", true, true, false⟩ : BrailleTable))]
      "a.ctb" = some ⟨"a.ctb", "Old", true, true, false⟩ ∧
    getTable [("a.ctb", (⟨"a.ctb", "New", false, true, true⟩ : BrailleTable))]
      "a.ctb" = some ⟨"a.ctb", "New", false, true, true⟩ :=
  ⟨by decide,
   (addTable_overwrites [("a.ctb", ⟨"a.ctb", "Old", true, true, false⟩)]
      "a.ctb" "New" false true true ⟨"a.ctb", "Old", true, true, false⟩
      [("a.ctb", ⟨"a.ctb", "New", false, true, true⟩)] (by decide) rfl).1⟩

/-- C8: after `terminate`, from any prior state, the registry is empty,
every lookup fails, and the directory list is exactly `[TABLES_DIR]`. -/
theorem terminate_resets (s : ModuleState) :
    (terminate s).tables = [] ∧
    (∀ fn : String, getTable (terminate s).tables fn = none) ∧
    (terminate s).tablesDirs = [TABLES_DIR] :=
  ⟨rfl, fun _ => rfl, rfl⟩

/-- C9: `RENAMED_TABLES` maps `ar-fa.utb` to `fa-ir-g1.utb`, and every
value of `RENAMED_TABLES` is registered once the builtin tables have been
added by a load. -/
theorem renamedTables_integrity :
    alistGet RENAMED_TABLES "ar-fa.utb" = some "fa-ir-g1.utb" ∧
    ∀ p ∈ RENAMED_TABLES, (getTable builtinRegistry p.2).isSome = true := by
  constructor
  · rfl
  · decide

theorem renamedTables_integrity_witness :
    ("ar-fa.utb", "fa-ir-g1.utb") ∈ RENAMED_TABLES ∧
    (getTable builtinRegistry ("ar-fa.utb", "fa-ir-g1.utb").2).isSome = true :=
  ⟨by decide, renamedTables_integrity.2 ("ar-fa.utb", "fa-ir-g1.utb") (by decide)⟩

/-- C10: a locale key whose value is the empty string is treated as absent:
the exact-match step falls through to the rest of the chain (each step
tests truthiness, not key membership), and the resolved name is never the
empty string unless the file name itself is empty. -/
theorem emptyValue_falls_through :
    (∀ (f : String) (m : List (String × String)) (lang : String),
      alistGet m lang = some "" →
      resolveLocaleDisplayName f m lang = resolveTail f m lang none) ∧
    (∀ (m : List (String × String)) (key : String),
      chainStep m key (some "") = alistGet m key) ∧
    (∀ (f : String) (m : List (String × String)) (lang : String),
      resolveLocaleDisplayName f m lang ≠ "" ∨
      resolveLocaleDisplayName f m lang = f) := by
  refine ⟨?_, ?_, ?_⟩
  · intro f m lang h
    simp [resolveLocaleDisplayName, resolveTail, chainStep, pyFalsy, h]
  · intro m key
    simp [chainStep, pyFalsy]
  · intro f m lang
    have aux : ∀ d : Option String,
        (if pyFalsy d then f else d.getD f) ≠ "" ∨
        (if pyFalsy d then f else d.getD f) = f := by
      intro d
      cases d with
      | none => right; simp [pyFalsy]
      | some s =>
        by_cases hs : s = ""
        · subst hs; right; simp [pyFalsy]
        · left; simp [pyFalsy, hs]
    simpa [resolveLocaleDisplayName, resolveTail] using
      aux (chainStep m "en" (chainStep m "en_US"
        (chainStep m (langSplit lang) (alistGet m lang))))

theorem emptyValue_falls_through_witness :
    alistGet [("fr", "")] "fr" = some "" ∧
    resolveLocaleDisplayName "x.ctb" [("fr", "")] "fr" =
      resolveTail "x.ctb" [("fr", "")] "fr" none :=
  ⟨by decide, emptyValue_falls_through.1 "x.ctb" [("fr", "")] "fr" (by decide)⟩

end BrailleTables
